import Mathlib

/-
Shallow embedding of vbitrate-viewer (src/main.rs).

Modelling conventions:

* Every `f64` value of the program is modelled exactly by `FVal`:
  either a finite rational (exact arithmetic, no rounding) or one of the
  IEEE special values `inf`, `neginf`, `nan`, with the usual IEEE
  propagation rules for the operations the program performs
  (in particular `x / 0 = inf` for `x > 0` and `0 / 0 = nan`).
  Decimal literals such as `1.2` are taken at their exact decimal value.

* The ffmpeg demux/decode session driven by `get_video_info`
  (source lines 36-53) is modelled by its observable event stream: each
  `packets.next()` call yields `Except.ok` with a `PacketEvent` (the
  packet's stream index, its compressed byte size, and the outcome of
  `decoder.decode` on that packet) or `Except.error` (a demux-level
  error entry, on which the `while let Some(Ok(..))` loop stops).
  Setup (container open, best-stream selection, decoder initialization,
  lines 24-33) is assumed to have succeeded; `input_stream_idx` is the
  index of the selected video stream. The mutable `decoded_frame`
  buffer is modelled by the dimensions of the last successfully decoded
  frame (`frame::Video::empty()` has width 0 and height 0), and
  `decoded_frame.packet().size` - the compressed size of the packet
  that completed the frame - coincides with the size of the packet just
  submitted at this per-packet granularity.

* Machine integers (`u32`, `usize`) are modelled as `Nat`. The one
  reachable overflow is `datas.len() - 1` on an empty slice in
  `draw_graph` (line 72): under debug overflow checks this panics,
  modelled as `RenderResult.panicked` (release builds wrap instead;
  neither behaviour is an error return).

* `draw_graph` (lines 56-93) is modelled by the chart description it
  hands to the plotting backend: computed statistics, axis ranges,
  labels and the two drawn point series. Backend drawing errors
  (`fill`, `draw`) and the bitmap file side effect live in the external
  plotters library and are outside this embedding.
-/

/- IEEE-idealized f64 values: exact rationals plus the special values. -/
inductive FVal where
  | fin (q : ℚ)
  | inf
  | neginf
  | nan
deriving DecidableEq

namespace FVal

/- Rust f64::max as used in `v.max(m)` (line 66): NaN-ignoring maximum. -/
def fmax : FVal → FVal → FVal
  | nan, b => b
  | a, nan => a
  | inf, _ => inf
  | _, inf => inf
  | neginf, b => b
  | a, neginf => a
  | fin a, fin b => fin (max a b)

def add : FVal → FVal → FVal
  | nan, _ => nan
  | _, nan => nan
  | fin a, fin b => fin (a + b)
  | inf, neginf => nan
  | neginf, inf => nan
  | inf, _ => inf
  | _, inf => inf
  | neginf, _ => neginf
  | _, neginf => neginf

def mul : FVal → FVal → FVal
  | nan, _ => nan
  | _, nan => nan
  | fin a, fin b => fin (a * b)
  | inf, fin b => if 0 < b then inf else if b < 0 then neginf else nan
  | fin a, inf => if 0 < a then inf else if a < 0 then neginf else nan
  | neginf, fin b => if 0 < b then neginf else if b < 0 then inf else nan
  | fin a, neginf => if 0 < a then neginf else if a < 0 then inf else nan
  | inf, inf => inf
  | inf, neginf => neginf
  | neginf, inf => neginf
  | neginf, neginf => inf

def div : FVal → FVal → FVal
  | nan, _ => nan
  | _, nan => nan
  | fin a, fin b =>
      if b = 0 then
        if 0 < a then inf else if a < 0 then neginf else nan
      else fin (a / b)
  | fin _, inf => fin 0
  | fin _, neginf => fin 0
  | inf, fin b => if 0 ≤ b then inf else neginf
  | neginf, fin b => if 0 ≤ b then neginf else inf
  | inf, inf => nan
  | inf, neginf => nan
  | neginf, inf => nan
  | neginf, neginf => nan

end FVal

/- struct Resolution (lines 12-15). -/
structure Resolution where
  w : ℕ
  h : ℕ
deriving DecidableEq

/- A decoded video frame, reduced to the pixel dimensions the program reads. -/
structure Frame where
  w : ℕ
  h : ℕ
deriving DecidableEq

instance {ε α : Type} [DecidableEq ε] [DecidableEq α] : DecidableEq (Except ε α) :=
  fun x y =>
  match x, y with
  | .ok a, .ok b =>
    if h : a = b then isTrue (by rw [h]) else isFalse (fun he => by cases he; exact h rfl)
  | .ok _, .error _ => isFalse (fun he => by cases he)
  | .error _, .ok _ => isFalse (fun he => by cases he)
  | .error e, .error f =>
    if h : e = f then isTrue (by rw [h]) else isFalse (fun he => by cases he; exact h rfl)

/- One successfully demuxed packet together with the outcome of
`decoder.decode` on it: `.ok f` means the decode call succeeded and
completed frame `f`; `.error e` means the decode call failed. -/
structure PacketEvent where
  stream_idx : ℕ
  size : ℕ
  res : Except String Frame
deriving DecidableEq

/- struct VideoInfo (lines 17-21). -/
structure VideoInfo where
  w : ℕ
  h : ℕ
  bits : List FVal
deriving DecidableEq

/- The body of the `while let` loop (lines 38-51) for one `Ok` demux
entry, acting on the `decoded_frame` buffer state `df` and the
accumulator `v`. -/
def extractStep (input_stream_idx : ℕ) (p : PacketEvent) (df : Frame) (v : VideoInfo) :
    Frame × VideoInfo :=
  if p.stream_idx = input_stream_idx then
    let df2 : Frame :=
      match p.res with
      | .ok f => f
      | .error _ => df
    let v1 : VideoInfo :=
      if v.w = 0 ∧ v.h = 0 then { v with w := df2.w, h := df2.h } else v
    let v2 : VideoInfo :=
      match p.res with
      | .ok _ => { v1 with bits := v1.bits ++ [FVal.fin (p.size : ℚ)] }
      | .error _ => v1
    (df2, v2)
  else (df, v)

/- The `while let Some(Ok((stream, packet)))` loop (lines 38-51): it
stops at the end of the packet stream or at the first demux `Err`
entry. -/
def extractLoop (input_stream_idx : ℕ) :
    List (Except String PacketEvent) → Frame → VideoInfo → VideoInfo
  | [], _, v => v
  | .error _ :: _, _, v => v
  | .ok p :: rest, df, v =>
    let s := extractStep input_stream_idx p df v
    extractLoop input_stream_idx rest s.1 s.2

/- The loop run from the initial state: empty `decoded_frame`
(`frame::Video::empty()`, line 35) and `VideoInfo { w: 0, h: 0, bits:
Vec::new() }` (line 37). -/
def extractRun (input_stream_idx : ℕ) (packets : List (Except String PacketEvent)) : VideoInfo :=
  extractLoop input_stream_idx packets ⟨0, 0⟩ ⟨0, 0, []⟩

/- fn get_video_info, post-setup part (lines 36-53): runs the loop and
returns `Ok(v_info)` (line 53). -/
def get_video_info (input_stream_idx : ℕ)
    (packets : List (Except String PacketEvent)) : Except String VideoInfo :=
  Except.ok (extractRun input_stream_idx packets)

/- Whether `decoder.decode` succeeded on this packet (`res.is_ok()`, line 46). -/
def decode_ok (p : PacketEvent) : Bool :=
  match p.res with
  | .ok _ => true
  | .error _ => false

/- Dimensions of the frame completed by this packet (zero if decode failed). -/
def frame_dims (p : PacketEvent) : Frame :=
  match p.res with
  | .ok f => f
  | .error _ => ⟨0, 0⟩

/- The packets the loop actually samples: the demux entries before the
first demux error, restricted to the selected stream, whose decode
succeeded. -/
def videoOkEvents (input_stream_idx : ℕ) :
    List (Except String PacketEvent) → List PacketEvent
  | [] => []
  | .error _ :: _ => []
  | .ok p :: rest =>
    if p.stream_idx = input_stream_idx ∧ decode_ok p = true then
      p :: videoOkEvents input_stream_idx rest
    else videoOkEvents input_stream_idx rest

/- The chart description `draw_graph` hands to the plotting backend:
statistics (lines 66-67), the Cartesian ranges and labels (lines
69-80), and the two drawn series (lines 82-91). -/
structure ChartSpec where
  canvas : Resolution
  x_lo : ℕ
  x_hi : ℕ
  y_lo : FVal
  y_hi : FVal
  x_label : String
  y_label : String
  maxv : FVal
  avg : FVal
  data_points : List (ℕ × FVal)
  mean_points : List (ℕ × FVal)
deriving DecidableEq

/- Outcome of `draw_graph`: the built chart, or the arithmetic-underflow
panic at `datas.len() - 1` (line 72) when `datas` is empty. -/
inductive RenderResult where
  | panicked
  | ok (c : ChartSpec)
deriving DecidableEq

/- fn draw_graph (lines 56-93). `max` folds Rust `v.max(m)` over the
data with an `f64::NAN` seed (line 66); `avg` is `sum / len` (line 67);
the chart is built over `0..(datas.len() - 1)` by `0.0..max * 1.2`
(line 72). -/
def draw_graph (datas : List FVal) (y_label : String) (output_size : Resolution) :
    RenderResult :=
  let maxv := datas.foldl (fun m v => FVal.fmax v m) FVal.nan
  let avg := FVal.div (datas.foldl FVal.add (FVal.fin 0)) (FVal.fin (datas.length : ℚ))
  if datas.length = 0 then
    RenderResult.panicked
  else
    RenderResult.ok
      { canvas := output_size
        x_lo := 0
        x_hi := datas.length - 1
        y_lo := FVal.fin 0
        y_hi := FVal.mul maxv (FVal.fin (1.2 : ℚ))
        x_label := "Frame no"
        y_label := y_label
        maxv := maxv
        avg := avg
        data_points := (List.range datas.length).zip datas
        mean_points := (List.range datas.length).map (fun x => (x, avg)) }

/- The metric-transformer branch of fn main (lines 152-162): either the
raw series labelled "bit", or each value divided by `pix_num = w * h`
labelled "bit per pixel". The division is unconditional in the source. -/
def transform_series (use_bpp : Bool) (v : VideoInfo) : List FVal × String :=
  if use_bpp then
    let pix_num : ℕ := v.w * v.h
    (v.bits.map (fun x => FVal.div x (FVal.fin (pix_num : ℚ))), "bit per pixel")
  else
    (v.bits, "bit")

/- Invariant of the extraction-loop state: while the accumulator still
has zero dimensions, the `decoded_frame` buffer is still empty (no
frame has been decoded yet, or every decoded frame so far had zero
dimensions). It holds at the initial state and is preserved by every
step. -/
def CleanInv (df : Frame) (v : VideoInfo) : Prop :=
  v.w = 0 ∧ v.h = 0 → df.w = 0 ∧ df.h = 0

theorem extractStep_other (idx : ℕ) (p : PacketEvent) (df : Frame) (v : VideoInfo)
    (hs : p.stream_idx ≠ idx) : extractStep idx p df v = (df, v) := by
  simp [extractStep, hs]

theorem extractStep_bits (idx : ℕ) (p : PacketEvent) (df : Frame) (v : VideoInfo) :
    (extractStep idx p df v).2.bits =
      if p.stream_idx = idx ∧ decode_ok p = true then v.bits ++ [FVal.fin (p.size : ℚ)]
      else v.bits := by
  by_cases hs : p.stream_idx = idx
  · cases hres : p.res with
    | ok f =>
      have hd : decode_ok p = true := by simp [decode_ok, hres]
      by_cases hc : v.w = 0 ∧ v.h = 0 <;>
        simp [extractStep, hs, hres, hd, hc]
    | error e =>
      have hd : decode_ok p = false := by simp [decode_ok, hres]
      by_cases hc : v.w = 0 ∧ v.h = 0 <;>
        simp [extractStep, hs, hres, hd, hc]
  · simp [extractStep, hs]

theorem extractLoop_bits (idx : ℕ) (evs : List (Except String PacketEvent)) :
    ∀ (df : Frame) (v : VideoInfo),
      (extractLoop idx evs df v).bits
        = v.bits ++ (videoOkEvents idx evs).map (fun p => FVal.fin (p.size : ℚ)) := by
  induction evs with
  | nil => intro df v; simp [extractLoop, videoOkEvents]
  | cons e rest ih =>
    intro df v
    cases e with
    | error s => simp [extractLoop, videoOkEvents]
    | ok p =>
      simp only [extractLoop]
      rw [ih, extractStep_bits]
      by_cases hc : p.stream_idx = idx ∧ decode_ok p = true
      · simp [videoOkEvents, hc, List.append_assoc]
      · simp [videoOkEvents, hc]

theorem extractLoop_demux_stop (idx : ℕ) (e : String)
    (evs1 evs2 : List (Except String PacketEvent)) :
    ∀ (df : Frame) (v : VideoInfo),
      extractLoop idx (evs1 ++ Except.error e :: evs2) df v = extractLoop idx evs1 df v := by
  induction evs1 with
  | nil => intro df v; simp [extractLoop]
  | cons x rest ih =>
    intro df v
    cases x with
    | error s => simp [extractLoop]
    | ok p =>
      simp only [List.cons_append, extractLoop]
      exact ih _ _

theorem extractLoop_skip_other (idx : ℕ) (p : PacketEvent) (hs : p.stream_idx ≠ idx)
    (evs1 evs2 : List (Except String PacketEvent)) :
    ∀ (df : Frame) (v : VideoInfo),
      extractLoop idx (evs1 ++ Except.ok p :: evs2) df v
        = extractLoop idx (evs1 ++ evs2) df v := by
  induction evs1 with
  | nil =>
    intro df v
    simp only [List.nil_append, extractLoop, extractStep_other idx p df v hs]
  | cons x rest ih =>
    intro df v
    cases x with
    | error s => simp [extractLoop]
    | ok q =>
      simp only [List.cons_append, extractLoop]
      exact ih _ _

theorem extractStep_inv (idx : ℕ) (p : PacketEvent) (df : Frame) (v : VideoInfo)
    (h : CleanInv df v) :
    CleanInv (extractStep idx p df v).1 (extractStep idx p df v).2 := by
  by_cases hs : p.stream_idx = idx
  · cases hres : p.res with
    | ok f =>
      by_cases hc : v.w = 0 ∧ v.h = 0
      · simp [extractStep, hs, hres, hc, CleanInv]
      · simp only [extractStep, hs, if_pos rfl, hres, if_neg hc, CleanInv]
        intro hcon
        exact absurd hcon hc
    | error e =>
      by_cases hc : v.w = 0 ∧ v.h = 0
      · simp [extractStep, hs, hres, hc, CleanInv]
      · simp only [extractStep, hs, if_pos rfl, hres, if_neg hc, CleanInv]
        exact h
  · simpa [extractStep, hs] using h

theorem extractStep_err_id (idx : ℕ) (p : PacketEvent) (df : Frame) (v : VideoInfo)
    (hs : p.stream_idx = idx) (e : String) (he : p.res = Except.error e)
    (h : CleanInv df v) : extractStep idx p df v = (df, v) := by
  obtain ⟨vw, vh, vb⟩ := v
  by_cases hc : vw = 0 ∧ vh = 0
  · obtain ⟨h1, h2⟩ := hc
    obtain ⟨h3, h4⟩ := h ⟨h1, h2⟩
    obtain ⟨dw, dh⟩ := df
    simp only at h3 h4
    subst h1; subst h2; subst h3; subst h4
    simp [extractStep, hs, he]
  · simp [extractStep, hs, he, hc]

theorem extractLoop_skip_err (idx : ℕ) (p : PacketEvent)
    (hs : p.stream_idx = idx) (e : String) (he : p.res = Except.error e)
    (evs1 evs2 : List (Except String PacketEvent)) :
    ∀ (df : Frame) (v : VideoInfo), CleanInv df v →
      extractLoop idx (evs1 ++ Except.ok p :: evs2) df v
        = extractLoop idx (evs1 ++ evs2) df v := by
  induction evs1 with
  | nil =>
    intro df v h
    simp only [List.nil_append, extractLoop, extractStep_err_id idx p df v hs e he h]
  | cons x rest ih =>
    intro df v h
    cases x with
    | error s => simp [extractLoop]
    | ok q =>
      simp only [List.cons_append, extractLoop]
      exact ih _ _ (extractStep_inv idx q df v h)

theorem extractStep_dims_frozen (idx : ℕ) (p : PacketEvent) (df : Frame) (v : VideoInfo)
    (h : ¬(v.w = 0 ∧ v.h = 0)) :
    (extractStep idx p df v).2.w = v.w ∧ (extractStep idx p df v).2.h = v.h := by
  by_cases hs : p.stream_idx = idx
  · cases hres : p.res <;> simp [extractStep, hs, hres, h]
  · simp [extractStep, hs]

theorem extractLoop_dims_frozen (idx : ℕ) (evs : List (Except String PacketEvent)) :
    ∀ (df : Frame) (v : VideoInfo), ¬(v.w = 0 ∧ v.h = 0) →
      (extractLoop idx evs df v).w = v.w ∧ (extractLoop idx evs df v).h = v.h := by
  induction evs with
  | nil => intro df v h; simp [extractLoop]
  | cons x rest ih =>
    intro df v h
    cases x with
    | error s => simp [extractLoop]
    | ok q =>
      simp only [extractLoop]
      obtain ⟨hw, hh⟩ := extractStep_dims_frozen idx q df v h
      have h2 : ¬((extractStep idx q df v).2.w = 0 ∧ (extractStep idx q df v).2.h = 0) := by
        rw [hw, hh]; exact h
      obtain ⟨hw2, hh2⟩ := ih _ _ h2
      exact ⟨hw2.trans hw, hh2.trans hh⟩

theorem extractLoop_dims_clean (idx : ℕ) (evs : List (Except String PacketEvent)) :
    ∀ (df : Frame) (v : VideoInfo),
      df.w = 0 → df.h = 0 → v.w = 0 → v.h = 0 →
      (∀ p ∈ videoOkEvents idx evs, 0 < (frame_dims p).w ∧ 0 < (frame_dims p).h) →
      (extractLoop idx evs df v).w
          = ((videoOkEvents idx evs).head?.map (fun p => (frame_dims p).w)).getD 0
        ∧ (extractLoop idx evs df v).h
          = ((videoOkEvents idx evs).head?.map (fun p => (frame_dims p).h)).getD 0 := by
  induction evs with
  | nil => intro df v h1 h2 h3 h4 hpos; simp [extractLoop, videoOkEvents, h3, h4]
  | cons x rest ih =>
    intro df v h1 h2 h3 h4 hpos
    cases x with
    | error s => simp [extractLoop, videoOkEvents, h3, h4]
    | ok p =>
      by_cases hs : p.stream_idx = idx
      · cases hres : p.res with
        | ok f =>
          have hd : decode_ok p = true := by simp [decode_ok, hres]
          have hfd : frame_dims p = f := by simp [frame_dims, hres]
          have hmem : p ∈ videoOkEvents idx (Except.ok p :: rest) := by
            simp [videoOkEvents, hs, hd]
          obtain ⟨hfw, hfh⟩ := hpos p hmem
          rw [hfd] at hfw hfh
          simp only [extractLoop]
          have hstep : (extractStep idx p df v).2.w = f.w ∧ (extractStep idx p df v).2.h = f.h := by
            simp [extractStep, hs, hres, h3, h4]
          have hnz : ¬((extractStep idx p df v).2.w = 0 ∧ (extractStep idx p df v).2.h = 0) := by
            rw [hstep.1]
            intro hcon
            exact absurd hcon.1 (Nat.pos_iff_ne_zero.mp hfw)
          obtain ⟨hw2, hh2⟩ := extractLoop_dims_frozen idx rest _ _ hnz
          rw [hw2, hh2, hstep.1, hstep.2]
          simp [videoOkEvents, hs, hd, hfd]
        | error e =>
          have hd : decode_ok p = false := by simp [decode_ok, hres]
          simp only [extractLoop]
          have hdf : (extractStep idx p df v).1 = df := by simp [extractStep, hs, hres]
          have hvw : (extractStep idx p df v).2.w = 0 ∧ (extractStep idx p df v).2.h = 0 := by
            simp [extractStep, hs, hres, h3, h4, h1, h2]
          have hpos2 : ∀ q ∈ videoOkEvents idx rest,
              0 < (frame_dims q).w ∧ 0 < (frame_dims q).h := by
            intro q hq
            exact hpos q (by simp [videoOkEvents, hs, hd]; exact hq)
          have hev : videoOkEvents idx (Except.ok p :: rest) = videoOkEvents idx rest := by
            simp [videoOkEvents, hs, hd]
          rw [hev]
          exact ih _ _ (by rw [hdf]; exact h1) (by rw [hdf]; exact h2) hvw.1 hvw.2 hpos2
      · simp only [extractLoop, extractStep_other idx p df v hs]
        have hpos2 : ∀ q ∈ videoOkEvents idx rest,
            0 < (frame_dims q).w ∧ 0 < (frame_dims q).h := by
          intro q hq
          exact hpos q (by simp [videoOkEvents, hs]; exact hq)
        have hev : videoOkEvents idx (Except.ok p :: rest) = videoOkEvents idx rest := by
          simp [videoOkEvents, hs]
        rw [hev]
        exact ih _ _ h1 h2 h3 h4 hpos2

theorem foldl_add_fin (qs : List ℚ) :
    ∀ a : ℚ, (qs.map FVal.fin).foldl FVal.add (FVal.fin a) = FVal.fin (a + qs.sum) := by
  induction qs with
  | nil => intro a; simp
  | cons q t ih =>
    intro a
    simp only [List.map_cons, List.foldl_cons]
    rw [show FVal.add (FVal.fin a) (FVal.fin q) = FVal.fin (a + q) from rfl, ih]
    simp [add_assoc]

theorem foldl_fmax_fin (qs : List ℚ) :
    ∀ a : ℚ, (qs.map FVal.fin).foldl (fun m v => FVal.fmax v m) (FVal.fin a)
      = FVal.fin (qs.foldl (fun m x => max x m) a) := by
  induction qs with
  | nil => intro a; simp
  | cons q t ih =>
    intro a
    simp only [List.map_cons, List.foldl_cons]
    rw [show FVal.fmax (FVal.fin q) (FVal.fin a) = FVal.fin (max q a) from rfl]
    exact ih _

theorem foldl_fmax_nan (q : ℚ) (t : List ℚ) :
    ((q :: t).map FVal.fin).foldl (fun m v => FVal.fmax v m) FVal.nan
      = FVal.fin (t.foldl (fun m x => max x m) q) := by
  simp only [List.map_cons, List.foldl_cons]
  rw [show FVal.fmax (FVal.fin q) FVal.nan = FVal.fin q from rfl]
  exact foldl_fmax_fin t q

theorem foldMax_mem (t : List ℚ) :
    ∀ a : ℚ, t.foldl (fun m x => max x m) a = a ∨ t.foldl (fun m x => max x m) a ∈ t := by
  induction t with
  | nil => intro a; left; rfl
  | cons x s ih =>
    intro a
    simp only [List.foldl_cons]
    rcases ih (max x a) with h | h
    · rcases max_choice x a with hx | hx
      · right; rw [h, hx]; exact List.mem_cons_self _ _
      · left; rw [h, hx]
    · right; exact List.mem_cons_of_mem _ h

theorem foldMax_le (t : List ℚ) :
    ∀ a : ℚ, a ≤ t.foldl (fun m x => max x m) a
      ∧ ∀ x ∈ t, x ≤ t.foldl (fun m x => max x m) a := by
  induction t with
  | nil => intro a; exact ⟨le_refl a, by simp⟩
  | cons y s ih =>
    intro a
    simp only [List.foldl_cons]
    obtain ⟨h1, h2⟩ := ih (max y a)
    refine ⟨le_trans (le_max_right y a) h1, ?_⟩
    intro x hx
    rcases List.mem_cons.mp hx with rfl | hx
    · exact le_trans (le_max_left x a) h1
    · exact h2 x hx

theorem div_fin_fin (a b : ℚ) (hb : b ≠ 0) :
    FVal.div (FVal.fin a) (FVal.fin b) = FVal.fin (a / b) := by
  simp [FVal.div, hb]

theorem map_div_fin (qs : List ℚ) (k : ℚ) (hk : k ≠ 0) :
    (qs.map FVal.fin).map (fun x => FVal.div x (FVal.fin k))
      = qs.map (fun q => FVal.fin (q / k)) := by
  induction qs with
  | nil => rfl
  | cons q t ih =>
    simp only [List.map_cons]
    rw [ih]
    congr 1
    simp [FVal.div, hk]

/-- C1: the claim says that requesting per-pixel normalization on a
series with `width * height = 0` fails with `InvalidNormalizationError`
instead of producing NaN/Infinity values. The code (main, lines
152-162) has no such error path: it divides by `pix_num = w * h`
unconditionally, so at the failing input (a `VideoInfo` with zero
dimensions, one sample `5068.0`, `--bpp` set) it succeeds and produces
a `+Infinity` sample. This theorem evaluates the transformer at that
failing input. -/
theorem transform_zero_dims_produces_infinity :
    transform_series true ⟨0, 0, [FVal.fin 5068]⟩ = ([FVal.inf], "bit per pixel") := by
  decide

/-- C2: the claim says rendering an empty series fails with
`EmptySeriesError` without computing max/mean or drawing, producing no
file. The code has no such error value: on `datas = []` it computes
`max = NaN` and `mean = NaN` and then panics on the arithmetic
underflow of `datas.len() - 1` (line 72) under debug overflow checks
(release builds wrap instead); no `EmptySeriesError` is ever returned.
This theorem evaluates `draw_graph` at the failing input. -/
theorem draw_graph_empty_panics :
    draw_graph [] "bit" ⟨1920, 1080⟩ = RenderResult.panicked := by
  decide

/-- C3: for every non-empty series `S` of finite values, `draw_graph`
computes `mean = sum(S) / count(S)`, builds the x-axis over the domain
`[0, count(S) - 1]`, and sets the y-axis domain upper bound to
`1.2 * max(S)` (with lower bound 0). -/
theorem draw_graph_stats_correct (qs : List ℚ) (hne : qs ≠ [])
    (y_label : String) (sz : Resolution) :
    ∃ c, draw_graph (qs.map FVal.fin) y_label sz = RenderResult.ok c
      ∧ c.avg = FVal.fin (qs.sum / (qs.length : ℚ))
      ∧ c.x_lo = 0 ∧ c.x_hi = qs.length - 1
      ∧ c.y_lo = FVal.fin 0
      ∧ ∃ M, M ∈ qs ∧ (∀ x ∈ qs, x ≤ M) ∧ c.y_hi = FVal.fin ((1.2 : ℚ) * M) := by
  obtain ⟨q, t, rfl⟩ := List.exists_cons_of_ne_nil hne
  have hlen0 : ¬(((q :: t).map FVal.fin).length = 0) := by simp
  simp only [draw_graph, if_neg hlen0]
  refine ⟨_, rfl, ?_, rfl, by simp, rfl, ?_⟩
  · rw [foldl_add_fin]
    have hne2 : ((((q :: t).map FVal.fin).length : ℕ) : ℚ) ≠ 0 := Nat.cast_ne_zero.mpr hlen0
    rw [div_fin_fin _ _ hne2]
    simp
  · refine ⟨t.foldl (fun m x => max x m) q, ?_, ?_, ?_⟩
    · rcases foldMax_mem t q with h | h
      · rw [h]; exact List.mem_cons_self _ _
      · exact List.mem_cons_of_mem _ h
    · intro x hx
      rcases List.mem_cons.mp hx with rfl | hx
      · exact (foldMax_le t x).1
      · exact (foldMax_le t q).2 x hx
    · rw [foldl_fmax_nan]
      rw [show FVal.mul (FVal.fin (t.foldl (fun m x => max x m) q)) (FVal.fin (1.2 : ℚ))
            = FVal.fin (t.foldl (fun m x => max x m) q * (1.2 : ℚ)) from rfl]
      rw [mul_comm]

/-- C3 witness: the statistics theorem applied to the concrete series
`[3000, 2000, 1500]` used by the repository's own renderer test. -/
theorem draw_graph_stats_correct_witness :
    (([3000, 2000, 1500] : List ℚ) ≠ []) ∧
    ∃ c, draw_graph (([3000, 2000, 1500] : List ℚ).map FVal.fin) "bit" ⟨1280, 960⟩
        = RenderResult.ok c
      ∧ c.avg = FVal.fin (([3000, 2000, 1500] : List ℚ).sum / ((([3000, 2000, 1500] : List ℚ).length : ℕ) : ℚ))
      ∧ c.x_lo = 0 ∧ c.x_hi = ([3000, 2000, 1500] : List ℚ).length - 1
      ∧ c.y_lo = FVal.fin 0
      ∧ ∃ M, M ∈ ([3000, 2000, 1500] : List ℚ) ∧ (∀ x ∈ ([3000, 2000, 1500] : List ℚ), x ≤ M)
          ∧ c.y_hi = FVal.fin ((1.2 : ℚ) * M) :=
  ⟨by decide, draw_graph_stats_correct [3000, 2000, 1500] (by decide) "bit" ⟨1280, 960⟩⟩

/-- C4: a video-stream packet whose decode fails contributes no sample
and does not stop the loop: the run is identical to the run on the
stream with that packet removed (so all later valid packets are still
sampled), and extraction still returns `Ok`. -/
theorem decode_failure_skipped (idx : ℕ) (p : PacketEvent) (e : String)
    (hs : p.stream_idx = idx) (he : p.res = Except.error e)
    (evs1 evs2 : List (Except String PacketEvent)) :
    get_video_info idx (evs1 ++ Except.ok p :: evs2) = get_video_info idx (evs1 ++ evs2)
      ∧ ∃ vi, get_video_info idx (evs1 ++ Except.ok p :: evs2) = Except.ok vi := by
  have h : extractLoop idx (evs1 ++ Except.ok p :: evs2) ⟨0, 0⟩ ⟨0, 0, []⟩
      = extractLoop idx (evs1 ++ evs2) ⟨0, 0⟩ ⟨0, 0, []⟩ :=
    extractLoop_skip_err idx p hs e he evs1 evs2 ⟨0, 0⟩ ⟨0, 0, []⟩ (fun _ => ⟨rfl, rfl⟩)
  exact ⟨by simp [get_video_info, extractRun, h], ⟨_, rfl⟩⟩

/-- C4 witness: a corrupt packet between two valid packets of stream 0
is skipped; the run equals the run without it and still returns `Ok`. -/
theorem decode_failure_skipped_witness :
    (get_video_info 0 ([Except.ok ⟨0, 10, Except.ok ⟨320, 180⟩⟩]
          ++ Except.ok ⟨0, 99, Except.error "bad packet"⟩
            :: [Except.ok ⟨0, 20, Except.ok ⟨320, 180⟩⟩])
        = get_video_info 0 ([Except.ok ⟨0, 10, Except.ok ⟨320, 180⟩⟩]
          ++ [Except.ok ⟨0, 20, Except.ok ⟨320, 180⟩⟩])
      ∧ ∃ vi, get_video_info 0 ([Except.ok ⟨0, 10, Except.ok ⟨320, 180⟩⟩]
          ++ Except.ok ⟨0, 99, Except.error "bad packet"⟩
            :: [Except.ok ⟨0, 20, Except.ok ⟨320, 180⟩⟩]) = Except.ok vi) :=
  decode_failure_skipped 0 ⟨0, 99, Except.error "bad packet"⟩ "bad packet" rfl rfl
    [Except.ok ⟨0, 10, Except.ok ⟨320, 180⟩⟩] [Except.ok ⟨0, 20, Except.ok ⟨320, 180⟩⟩]

/-- C5: every recorded sample is the compressed input packet's byte
size cast to a float: the result's `bits` is exactly the list of
`size` fields of the successfully decoded video-stream packets, in
decode order, independent of the decoded frames' pixel dimensions. -/
theorem bits_are_packet_sizes (idx : ℕ) (evs : List (Except String PacketEvent)) :
    ∃ vi, get_video_info idx evs = Except.ok vi
      ∧ vi.bits = (videoOkEvents idx evs).map (fun p => FVal.fin (p.size : ℚ)) := by
  refine ⟨extractRun idx evs, rfl, ?_⟩
  have h := extractLoop_bits idx evs ⟨0, 0⟩ ⟨0, 0, []⟩
  simpa [extractRun] using h

/-- C6: provided every decoded frame has positive dimensions, the
result's `width`/`height` are those of the first successfully decoded
frame (and are never overwritten afterwards); if no frame decodes
successfully both stay 0 and `values` is empty, and the extractor still
returns the series as `Ok`, not an error. -/
theorem dims_from_first_decoded_frame (idx : ℕ) (evs : List (Except String PacketEvent))
    (hpos : ∀ p ∈ videoOkEvents idx evs, 0 < (frame_dims p).w ∧ 0 < (frame_dims p).h) :
    get_video_info idx evs = Except.ok (extractRun idx evs)
      ∧ (extractRun idx evs).w
          = ((videoOkEvents idx evs).head?.map (fun p => (frame_dims p).w)).getD 0
      ∧ (extractRun idx evs).h
          = ((videoOkEvents idx evs).head?.map (fun p => (frame_dims p).h)).getD 0
      ∧ (videoOkEvents idx evs = [] → (extractRun idx evs).bits = []) := by
  obtain ⟨hw, hh⟩ := extractLoop_dims_clean idx evs ⟨0, 0⟩ ⟨0, 0, []⟩ rfl rfl rfl rfl hpos
  refine ⟨rfl, hw, hh, ?_⟩
  intro hnil
  have h := extractLoop_bits idx evs ⟨0, 0⟩ ⟨0, 0, []⟩
  rw [hnil] at h
  simpa [extractRun] using h

/-- C6 witness: a run with one other-stream packet, one failed decode
and two decoded 320x180 frames captures dimensions 320x180 from the
first decoded frame, and a run with no decodable packet yields the
zero-dimension empty series as `Ok`. -/
theorem dims_from_first_decoded_frame_witness :
    (get_video_info 0 [Except.ok ⟨1, 99, Except.ok ⟨8, 8⟩⟩,
        Except.ok ⟨0, 77, Except.error "bad"⟩,
        Except.ok ⟨0, 5068, Except.ok ⟨320, 180⟩⟩,
        Except.ok ⟨0, 206, Except.ok ⟨320, 180⟩⟩]
        = Except.ok (extractRun 0 [Except.ok ⟨1, 99, Except.ok ⟨8, 8⟩⟩,
            Except.ok ⟨0, 77, Except.error "bad"⟩,
            Except.ok ⟨0, 5068, Except.ok ⟨320, 180⟩⟩,
            Except.ok ⟨0, 206, Except.ok ⟨320, 180⟩⟩])
      ∧ (extractRun 0 [Except.ok ⟨1, 99, Except.ok ⟨8, 8⟩⟩,
            Except.ok ⟨0, 77, Except.error "bad"⟩,
            Except.ok ⟨0, 5068, Except.ok ⟨320, 180⟩⟩,
            Except.ok ⟨0, 206, Except.ok ⟨320, 180⟩⟩]).w = 320
      ∧ (extractRun 0 [Except.ok ⟨1, 99, Except.ok ⟨8, 8⟩⟩,
            Except.ok ⟨0, 77, Except.error "bad"⟩,
            Except.ok ⟨0, 5068, Except.ok ⟨320, 180⟩⟩,
            Except.ok ⟨0, 206, Except.ok ⟨320, 180⟩⟩]).h = 180) := by
  obtain ⟨h1, h2, h3, _⟩ := dims_from_first_decoded_frame 0
    [Except.ok ⟨1, 99, Except.ok ⟨8, 8⟩⟩,
      Except.ok ⟨0, 77, Except.error "bad"⟩,
      Except.ok ⟨0, 5068, Except.ok ⟨320, 180⟩⟩,
      Except.ok ⟨0, 206, Except.ok ⟨320, 180⟩⟩] (by decide)
  exact ⟨h1, by rw [h2]; decide, by rw [h3]; decide⟩

/-- C7: a packet of a different stream index is ignored entirely: the
run is identical to the run on the stream with that packet removed, so
it is never submitted to the decoder and contributes no sample. -/
theorem other_stream_packets_ignored (idx : ℕ) (p : PacketEvent) (hs : p.stream_idx ≠ idx)
    (evs1 evs2 : List (Except String PacketEvent)) :
    get_video_info idx (evs1 ++ Except.ok p :: evs2) = get_video_info idx (evs1 ++ evs2) := by
  have h := extractLoop_skip_other idx p hs evs1 evs2 ⟨0, 0⟩ ⟨0, 0, []⟩
  simp [get_video_info, extractRun, h]

/-- C7 witness: an audio-stream packet (index 1, even one that would
decode) interleaved between two video packets of stream 0 leaves the
run unchanged. -/
theorem other_stream_packets_ignored_witness :
    get_video_info 0 ([Except.ok ⟨0, 10, Except.ok ⟨320, 180⟩⟩]
        ++ Except.ok ⟨1, 999, Except.ok ⟨8, 8⟩⟩ :: [Except.ok ⟨0, 20, Except.ok ⟨320, 180⟩⟩])
      = get_video_info 0 ([Except.ok ⟨0, 10, Except.ok ⟨320, 180⟩⟩]
        ++ [Except.ok ⟨0, 20, Except.ok ⟨320, 180⟩⟩]) :=
  other_stream_packets_ignored 0 ⟨1, 999, Except.ok ⟨8, 8⟩⟩ (by decide)
    [Except.ok ⟨0, 10, Except.ok ⟨320, 180⟩⟩] [Except.ok ⟨0, 20, Except.ok ⟨320, 180⟩⟩]

/-- C8: without normalization the transformer returns the raw series
labelled "bit"; with normalization (and a positive pixel count) every
value `v` becomes `v / (width * height)` and the label becomes
"bit per pixel". -/
theorem transform_series_spec (use_bpp : Bool) (v : VideoInfo) (qs : List ℚ)
    (hbits : v.bits = qs.map FVal.fin) :
    (use_bpp = false → transform_series use_bpp v = (qs.map FVal.fin, "bit"))
    ∧ (use_bpp = true → 0 < v.w * v.h →
        transform_series use_bpp v
          = (qs.map (fun q => FVal.fin (q / ((v.w * v.h : ℕ) : ℚ))), "bit per pixel")) := by
  constructor
  · intro h; subst h; simp [transform_series, hbits]
  · intro h hpos; subst h
    have hk : ((v.w * v.h : ℕ) : ℚ) ≠ 0 := by
      exact_mod_cast Nat.pos_iff_ne_zero.mp hpos
    simp only [transform_series, if_pos]
    rw [hbits, map_div_fin qs _ hk]

/-- C8 witness: the transformer applied to the 320x180 series with the
single sample 5068, in both modes. -/
theorem transform_series_spec_witness :
    ((false = false → transform_series false ⟨320, 180, [FVal.fin 5068]⟩
        = (([5068] : List ℚ).map FVal.fin, "bit"))
      ∧ (false = true → 0 < 320 * 180 → transform_series false ⟨320, 180, [FVal.fin 5068]⟩
        = (([5068] : List ℚ).map (fun q => FVal.fin (q / ((320 * 180 : ℕ) : ℚ))), "bit per pixel")))
    ∧ ((true = false → transform_series true ⟨320, 180, [FVal.fin 5068]⟩
        = (([5068] : List ℚ).map FVal.fin, "bit"))
      ∧ (true = true → 0 < 320 * 180 → transform_series true ⟨320, 180, [FVal.fin 5068]⟩
        = (([5068] : List ℚ).map (fun q => FVal.fin (q / ((320 * 180 : ℕ) : ℚ))), "bit per pixel"))) :=
  ⟨transform_series_spec false ⟨320, 180, [FVal.fin 5068]⟩ [5068] rfl,
    transform_series_spec true ⟨320, 180, [FVal.fin 5068]⟩ [5068] rfl⟩

/-- C10: a demux-level `Err` entry makes the `while let Some(Ok(..))`
loop stop: the run equals the run on the prefix before the error entry,
and the function still returns `Ok` with the samples accumulated so
far - demux errors after setup are never propagated as failures. -/
theorem demux_error_truncates_ok (idx : ℕ) (e : String)
    (evs1 evs2 : List (Except String PacketEvent)) :
    get_video_info idx (evs1 ++ Except.error e :: evs2) = get_video_info idx evs1
      ∧ ∃ vi, get_video_info idx (evs1 ++ Except.error e :: evs2) = Except.ok vi := by
  have h := extractLoop_demux_stop idx e evs1 evs2 ⟨0, 0⟩ ⟨0, 0, []⟩
  exact ⟨by simp [get_video_info, extractRun, h], ⟨_, rfl⟩⟩

